import Mathlib

/-!
# Verification of the surebet arbitrage detector and market consolidator

Shallow embedding of the arbitrage-detection core of
`src/surebet-scraper/surebet_scraper.py` (classes `Odd`, `Match`, `SureBet`,
`SureBetDetector`, and the consolidation loop in `main`).

Python floats are modelled by exact rationals (`ℚ`); Python's `round(x, 2)`
(round half to even) is modelled exactly on rationals; Python exceptions
(`ZeroDivisionError` from `1 / odd.value` and from `weight / total_weight`
and `guaranteed_profit / total_stake`, `IndexError` from `stakes[0]`) are
modelled by `Except Unit`; Python `dict`s (which preserve insertion order)
are modelled by insertion-ordered association lists.
-/

namespace SurebetScraper

attribute [local semireducible] Rat.mul Rat.add Rat.inv Rat.sub

/-- Embeds the dataclass `Odd` (surebet_scraper.py lines 70-84): one price for
one outcome from one bookmaker.  The `timestamp` field models the
`datetime` observation time by a natural number (only its ordering matters). -/
structure Odd where
  bookmaker : String
  outcome : String
  value : ℚ
  timestamp : ℕ
deriving Repr, DecidableEq, Inhabited

/-- Embeds the dataclass `Match` (lines 87-109): a fixture with its odds.
The field `odds : Dict[str, List[Odd]]` (market name → quote list) is an
insertion-ordered dict, modelled as an association list. -/
structure Match where
  home_team : String
  away_team : String
  league : String
  country : String
  odds : List (String × List Odd)
deriving Repr, DecidableEq, Inhabited

/-- Embeds one element of the `stakes` list built by
`SureBetDetector._calculate_stakes` (lines 407-413): the per-outcome dict
with keys `outcome`, `bookmaker`, `odds`, `stake`, `expected_return`. -/
structure StakeEntry where
  outcome : String
  bookmaker : String
  odds : ℚ
  stake : ℚ
  expected_return : ℚ
deriving Repr, DecidableEq, Inhabited

/-- Embeds the dataclass `SureBet` (lines 112-134); the `timestamp` field is
presentation metadata and is omitted.  `match_` renders the Python field
`match` (a Lean keyword). -/
structure SureBet where
  match_ : Match
  market : String
  margin : ℚ
  roi : ℚ
  stakes : List StakeEntry
  total_stake : ℚ
  guaranteed_profit : ℚ
deriving Repr, DecidableEq, Inhabited

/-- Embeds the two detector thresholds of `SUREBET_CONFIG` (config.py lines
97-104) that `SureBetDetector` reads: `margen_minimo` and `margen_maximo`. -/
structure SurebetConfig where
  margen_minimo : ℚ
  margen_maximo : ℚ
deriving Repr, DecidableEq

/-- Python's builtin `round` to an integer: round half to even
(banker's rounding), exact on rationals. -/
def pyRoundInt (x : ℚ) : ℤ :=
  let f : ℤ := ⌊x⌋
  let r : ℚ := x - f
  if r < 1/2 then f
  else if 1/2 < r then f + 1
  else if f % 2 = 0 then f else f + 1

/-- Python's `round(x, 2)` as used at lines 411-412: round to 2 decimal
places, half to even. -/
def pyRound2 (x : ℚ) : ℚ := (pyRoundInt (x * 100) : ℚ) / 100

/-- The grouping step of `_analyze_market` (lines 343-347): append `o` to the
entry of the insertion-ordered dict `groups` keyed by `o.outcome`, creating
the key at the end if absent (Python dict semantics). -/
def addToGroup (groups : List (String × List Odd)) (o : Odd) :
    List (String × List Odd) :=
  match groups with
  | [] => [(o.outcome, [o])]
  | (k, os) :: rest =>
    if k = o.outcome then (k, os ++ [o]) :: rest
    else (k, os) :: addToGroup rest o

/-- The `outcomes` dict of `_analyze_market` (lines 343-347): odds grouped by
outcome label in first-appearance order. -/
def groupByOutcome (odds_list : List Odd) : List (String × List Odd) :=
  odds_list.foldl addToGroup []

/-- Python's `max(odds, key=lambda x: x.value)` over `first :: rest`
(line 352): scan left to right, replacing the current maximum only when the
new value is strictly greater, so the first maximal element wins. -/
def pyMaxByValue (first : Odd) (rest : List Odd) : Odd :=
  rest.foldl (fun acc o => if acc.value < o.value then o else acc) first

/-- `max` of one odds group.  Groups built by `groupByOutcome` are never
empty, so the `[]` case (where Python's `max` would raise) is unreachable;
it returns a junk value. -/
def bestOfGroup : List Odd → Odd
  | [] => default
  | o :: rest => pyMaxByValue o rest

/-- The `best_odds` dict of `_analyze_market` (lines 349-353): for each
outcome, the quote with the maximum odds value (first one wins on ties). -/
def bestOdds (odds_list : List Odd) : List (String × Odd) :=
  (groupByOutcome odds_list).map (fun p => (p.1, bestOfGroup p.2))

/-- Embeds `SureBetDetector._calculate_margin` (lines 382-391):
`sum_inverse = sum(1 / odd.value for odd in best_odds.values())`; a zero
odds value raises `ZeroDivisionError` (modelled as `Except.error`); if
`sum_inverse >= 1` the margin is `0`, otherwise `(1 - sum_inverse) * 100`. -/
def calcMargin (best : List (String × Odd)) : Except Unit ℚ :=
  if ∃ p ∈ best, p.2.value = 0 then .error ()
  else
    let sum_inverse : ℚ := (best.map (fun p => 1 / p.2.value)).sum
    if 1 ≤ sum_inverse then .ok 0
    else .ok ((1 - sum_inverse) * 100)

/-- The unrounded per-outcome stake of `_calculate_stakes`: the local
`stake = (weight / total_weight) * total_stake` at line 404, before
`round(stake, 2)` is applied, where `weight = 1 / odd.value`. -/
def exactStake (best : List (String × Odd)) (total_stake : ℚ)
    (p : String × Odd) : ℚ :=
  (1 / p.2.value) / ((best.map (fun q => 1 / q.2.value)).sum) * total_stake

/-- Embeds `SureBetDetector._calculate_stakes` (lines 393-415): weights are
reciprocal odds (`ZeroDivisionError` on a zero value); each stake is
`(weight / total_weight) * total_stake` (`ZeroDivisionError` when
`total_weight` is zero); the stored `stake` and `expected_return` are
rounded to 2 decimal places with `round(_, 2)` at lines 411-412. -/
def calcStakes (best : List (String × Odd)) (total_stake : ℚ) :
    Except Unit (List StakeEntry) :=
  if ∃ p ∈ best, p.2.value = 0 then .error ()
  else if ((best.map (fun q => 1 / q.2.value)).sum) = 0 then .error ()
  else .ok (best.map (fun p =>
    { outcome := p.1
      bookmaker := p.2.bookmaker
      odds := p.2.value
      stake := pyRound2 (exactStake best total_stake p)
      expected_return := pyRound2 (exactStake best total_stake p * p.2.value) }))

/-- Embeds `SureBetDetector._calculate_profit` (lines 417-420):
`stakes[0]["expected_return"] - sum(s["stake"] for s in stakes)`; indexing
an empty list raises `IndexError` (modelled as `Except.error`). -/
def calcProfit (stakes : List StakeEntry) : Except Unit ℚ :=
  match stakes with
  | [] => .error ()
  | s0 :: rest => .ok (s0.expected_return - (s0.stake + (rest.map (fun s => s.stake)).sum))

/-- Embeds `SureBetDetector._analyze_market` (lines 338-380): group odds by
outcome, pick the best quote per outcome, compute the margin, reject when the
margin is below `margen_minimo` or above `margen_maximo` (returning `None`,
modelled `some`-less as `Except.ok none`), otherwise compute stakes, the
guaranteed profit and `roi = (guaranteed_profit / total_stake) * 100`
(`ZeroDivisionError` when `total_stake` is zero), and build the `SureBet`. -/
def analyzeMarket (cfg : SurebetConfig) (m : Match) (market : String)
    (odds_list : List Odd) (total_stake : ℚ) : Except Unit (Option SureBet) :=
  match calcMargin (bestOdds odds_list) with
  | .error e => .error e
  | .ok margin =>
    if margin < cfg.margen_minimo then .ok none
    else if cfg.margen_maximo < margin then .ok none
    else
      match calcStakes (bestOdds odds_list) total_stake with
      | .error e => .error e
      | .ok stakes =>
        match calcProfit stakes with
        | .error e => .error e
        | .ok guaranteed_profit =>
          if total_stake = 0 then .error ()
          else .ok (some
            { match_ := m
              market := market
              margin := margin
              roi := guaranteed_profit / total_stake * 100
              stakes := stakes
              total_stake := total_stake
              guaranteed_profit := guaranteed_profit })

/-- The inner loop of `find_surebets` (lines 330-334) over one match's
markets, in dict insertion order; an exception aborts the whole call. -/
def analyzeMarkets (cfg : SurebetConfig) (m : Match)
    (mkts : List (String × List Odd)) (total_stake : ℚ) :
    Except Unit (List SureBet) :=
  match mkts with
  | [] => .ok []
  | (mk, ol) :: rest =>
    match analyzeMarket cfg m mk ol total_stake with
    | .error e => .error e
    | .ok r =>
      match analyzeMarkets cfg m rest total_stake with
      | .error e => .error e
      | .ok rs =>
        match r with
        | some sb => .ok (sb :: rs)
        | none => .ok rs

/-- Embeds `SureBetDetector.find_surebets` (lines 326-336): analyze every
market of every match, collecting the emitted `SureBet`s in order; an
uncaught exception anywhere aborts the whole call with no partial result. -/
def findSurebets (cfg : SurebetConfig) (ms : List Match)
    (total_stake : ℚ) : Except Unit (List SureBet) :=
  match ms with
  | [] => .ok []
  | m :: rest =>
    match analyzeMarkets cfg m m.odds total_stake with
    | .error e => .error e
    | .ok r =>
      match findSurebets cfg rest total_stake with
      | .error e => .error e
      | .ok rs => .ok (r ++ rs)

/-- The consolidation key built at line 716 of `main`:
`key = f"{match.home_team}|{match.away_team}"`.  The league label does not
enter the key. -/
def matchKey (m : Match) : String := m.home_team ++ "|" ++ m.away_team

/-- Lines 722-724 of the consolidation loop for one market of the incoming
match: `if market not in consolidated.odds: consolidated.odds[market] = []`
followed by `consolidated.odds[market].extend(odds)` — the existing quote
list of the first dict entry keyed `k` is extended in place (quotes are
appended, never replaced); an absent market key is created at the end. -/
def dictExtend (d : List (String × List Odd)) (k : String) (v : List Odd) :
    List (String × List Odd) :=
  match d with
  | [] => [(k, v)]
  | (k1, os) :: rest =>
    if k1 = k then (k1, os ++ v) :: rest
    else (k1, os) :: dictExtend rest k v

/-- Lines 721-724: merge every market of the incoming match's odds dict into
the representative's odds dict, in dict iteration order. -/
def mergeOdds (into : List (String × List Odd))
    (incoming : List (String × List Odd)) : List (String × List Odd) :=
  incoming.foldl (fun acc p => dictExtend acc p.1 p.2) into

/-- Object state of the consolidation loop (lines 713-726).  Python stores
references: `consolidated_matches[key] = match` aliases the input `Match`
object, and `.extend` mutates it.  The heap is modelled explicitly:
`store` holds one cell per input match (in iteration order) and `reps` is
the `consolidated_matches` dict mapping each key to the store index of its
representative (the first match seen with that key). -/
structure ConsolidationState where
  store : List Match
  reps : List (String × ℕ)
deriving Repr, DecidableEq

/-- One iteration of the consolidation loop (lines 715-724) processing the
input match stored at index `i`: if its key is new, record `i` as the
representative; otherwise merge its odds into the representative's cell
in place. -/
def consolidateStep (st : ConsolidationState) (i : ℕ) : ConsolidationState :=
  let m := st.store.getD i default
  let key := matchKey m
  match List.lookup key st.reps with
  | none => { st with reps := st.reps ++ [(key, i)] }
  | some j =>
    let rep := st.store.getD j default
    let rep' := { rep with odds := mergeOdds rep.odds m.odds }
    { st with store := st.store.set j rep' }

/-- The whole consolidation loop (lines 712-724) over the flattened input
match sequence (all bookmakers' matches in iteration order): the final heap
and `consolidated_matches` dict. -/
def consolidate (inputs : List Match) : ConsolidationState :=
  (List.range inputs.length).foldl consolidateStep ⟨inputs, []⟩

/-- `match_list = list(consolidated_matches.values())` (line 726): the
representatives, read from the final heap in dict insertion order. -/
def matchList (st : ConsolidationState) : List Match :=
  st.reps.map (fun p => st.store.getD p.2 default)

/-! ## Helper lemmas -/

theorem pyMax_cons (o a : Odd) (rest : List Odd) :
    pyMaxByValue o (a :: rest) =
      pyMaxByValue (if o.value < a.value then a else o) rest := rfl

theorem pyMax_value_le (o : Odd) (os : List Odd) :
    o.value ≤ (pyMaxByValue o os).value := by
  induction os generalizing o with
  | nil => exact le_refl _
  | cons a rest ih =>
    rw [pyMax_cons]
    by_cases h : o.value < a.value
    · rw [if_pos h]
      exact le_of_lt (lt_of_lt_of_le h (ih a))
    · rw [if_neg h]
      exact ih o

/-- Python's `max` over `o :: os` splits the list around its result: strictly
smaller values before it, no strictly larger value after it — the first
maximal element wins. -/
theorem pyMax_first_max (os : List Odd) (o : Odd) :
    ∃ l1 l2, o :: os = l1 ++ pyMaxByValue o os :: l2 ∧
      (∀ x ∈ l1, x.value < (pyMaxByValue o os).value) ∧
      (∀ x ∈ l2, x.value ≤ (pyMaxByValue o os).value) := by
  induction os generalizing o with
  | nil => exact ⟨[], [], rfl, by simp, by simp⟩
  | cons a rest ih =>
    rw [pyMax_cons]
    by_cases h : o.value < a.value
    · rw [if_pos h]
      obtain ⟨l1, l2, heq, h1, h2⟩ := ih a
      refine ⟨o :: l1, l2, ?_, ?_, h2⟩
      · rw [List.cons_append]
        exact congrArg (o :: ·) heq
      · intro x hx
        rcases List.mem_cons.mp hx with rfl | hx
        · exact lt_of_lt_of_le h (pyMax_value_le a rest)
        · exact h1 x hx
    · rw [if_neg h]
      have ha : a.value ≤ o.value := le_of_not_lt h
      obtain ⟨l1, l2, heq, h1, h2⟩ := ih o
      cases l1 with
      | nil =>
        simp only [List.nil_append] at heq
        have ho : o = pyMaxByValue o rest := (List.cons_eq_cons.mp heq).1
        have hrest : rest = l2 := (List.cons_eq_cons.mp heq).2
        refine ⟨[], a :: rest, ?_, by simp, ?_⟩
        · simp [← ho]
        · intro x hx
          rcases List.mem_cons.mp hx with rfl | hx
          · exact le_trans ha (le_of_eq (congrArg Odd.value ho))
          · exact h2 x (hrest ▸ hx)
      | cons b l1t =>
        simp only [List.cons_append] at heq
        obtain ⟨hob, hrest⟩ := List.cons_eq_cons.mp heq
        refine ⟨o :: a :: l1t, l2, ?_, ?_, h2⟩
        · simp only [List.cons_append]
          exact congrArg (o :: ·) (congrArg (a :: ·) hrest)
        · intro x hx
          have hob' : o.value < (pyMaxByValue o rest).value := by
            have : b ∈ b :: l1t := by simp
            exact hob ▸ h1 b this
          rcases List.mem_cons.mp hx with rfl | hx
          · exact hob'
          · rcases List.mem_cons.mp hx with rfl | hx
            · exact lt_of_le_of_lt ha hob'
            · exact h1 x (by simp [hx])

theorem pyMax_mem (o : Odd) (os : List Odd) : pyMaxByValue o os ∈ o :: os := by
  obtain ⟨l1, l2, heq, -, -⟩ := pyMax_first_max os o
  rw [heq]
  simp

theorem addToGroup_ne_nil (groups : List (String × List Odd)) (o : Odd) :
    addToGroup groups o ≠ [] := by
  cases groups with
  | nil => simp [addToGroup]
  | cons g rest =>
    obtain ⟨k, os⟩ := g
    simp only [addToGroup]
    split <;> simp

theorem addToGroup_mem (groups : List (String × List Odd)) (o : Odd)
    (p : String × List Odd) (hp : p ∈ addToGroup groups o) (x : Odd)
    (hx : x ∈ p.2) : (∃ q ∈ groups, x ∈ q.2) ∨ x = o := by
  induction groups with
  | nil =>
    simp only [addToGroup, List.mem_singleton] at hp
    subst hp
    right
    simpa using hx
  | cons g rest ih =>
    obtain ⟨k, os⟩ := g
    simp only [addToGroup] at hp
    by_cases h : k = o.outcome
    · rw [if_pos h] at hp
      rcases List.mem_cons.mp hp with rfl | hp
      · rcases List.mem_append.mp hx with h1 | h1
        · exact Or.inl ⟨(k, os), by simp, h1⟩
        · exact Or.inr (by simpa using h1)
      · exact Or.inl ⟨p, by simp [hp], hx⟩
    · rw [if_neg h] at hp
      rcases List.mem_cons.mp hp with rfl | hp
      · exact Or.inl ⟨(k, os), by simp, hx⟩
      · rcases ih hp with ⟨q, hq, hxq⟩ | h2
        · exact Or.inl ⟨q, by simp [hq], hxq⟩
        · exact Or.inr h2

theorem addToGroup_all_ne_nil (groups : List (String × List Odd)) (o : Odd)
    (h : ∀ p ∈ groups, p.2 ≠ []) : ∀ p ∈ addToGroup groups o, p.2 ≠ [] := by
  induction groups with
  | nil =>
    intro p hp
    simp only [addToGroup, List.mem_singleton] at hp
    subst hp
    simp
  | cons g rest ih =>
    obtain ⟨k, os⟩ := g
    intro p hp
    simp only [addToGroup] at hp
    by_cases hk : k = o.outcome
    · rw [if_pos hk] at hp
      rcases List.mem_cons.mp hp with rfl | hp
      · simp
      · exact h p (by simp [hp])
    · rw [if_neg hk] at hp
      rcases List.mem_cons.mp hp with rfl | hp
      · exact h (k, os) (by simp)
      · exact ih (fun q hq => h q (by simp [hq])) p hp

theorem foldl_addToGroup_mem (l : List Odd) (acc : List (String × List Odd))
    (p : String × List Odd) (hp : p ∈ l.foldl addToGroup acc) (x : Odd)
    (hx : x ∈ p.2) : (∃ q ∈ acc, x ∈ q.2) ∨ x ∈ l := by
  induction l generalizing acc with
  | nil => exact Or.inl ⟨p, by simpa using hp, hx⟩
  | cons o rest ih =>
    simp only [List.foldl_cons] at hp
    rcases ih (addToGroup acc o) hp with ⟨q, hq, hxq⟩ | h2
    · rcases addToGroup_mem acc o q hq x hxq with ⟨r, hr, hxr⟩ | hxo
      · exact Or.inl ⟨r, hr, hxr⟩
      · exact Or.inr (by simp [hxo])
    · exact Or.inr (by simp [h2])

theorem foldl_addToGroup_ne_nil (l : List Odd) (acc : List (String × List Odd))
    (h : ∀ p ∈ acc, p.2 ≠ []) : ∀ p ∈ l.foldl addToGroup acc, p.2 ≠ [] := by
  induction l generalizing acc with
  | nil => simpa using h
  | cons o rest ih =>
    simp only [List.foldl_cons]
    exact ih (addToGroup acc o) (addToGroup_all_ne_nil acc o h)

theorem groupByOutcome_mem (l : List Odd) (p : String × List Odd)
    (hp : p ∈ groupByOutcome l) (x : Odd) (hx : x ∈ p.2) : x ∈ l := by
  rcases foldl_addToGroup_mem l [] p hp x hx with ⟨q, hq, -⟩ | h
  · exact absurd hq (by simp)
  · exact h

theorem groupByOutcome_ne_nil (l : List Odd) (p : String × List Odd)
    (hp : p ∈ groupByOutcome l) : p.2 ≠ [] :=
  foldl_addToGroup_ne_nil l [] (by simp) p hp

theorem bestOfGroup_mem (g : List Odd) (hg : g ≠ []) : bestOfGroup g ∈ g := by
  cases g with
  | nil => exact absurd rfl hg
  | cons a rest => exact pyMax_mem a rest

theorem bestOdds_mem (l : List Odd) (p : String × Odd) (hp : p ∈ bestOdds l) :
    p.2 ∈ l := by
  simp only [bestOdds, List.mem_map] at hp
  obtain ⟨q, hq, rfl⟩ := hp
  exact groupByOutcome_mem l q hq _
    (bestOfGroup_mem q.2 (groupByOutcome_ne_nil l q hq))

theorem sum_map_div_mul (l : List ℚ) (W T : ℚ) :
    (l.map (fun w => w / W * T)).sum = l.sum / W * T := by
  induction l with
  | nil => simp
  | cons a rest ih =>
    simp only [List.map_cons, List.sum_cons, ih, add_div, add_mul]

theorem pyRoundInt_close (x : ℚ) : |(pyRoundInt x : ℚ) - x| ≤ 1/2 := by
  have h0 : (⌊x⌋ : ℚ) ≤ x := Int.floor_le x
  have h1 : x < (⌊x⌋ : ℚ) + 1 := Int.lt_floor_add_one x
  unfold pyRoundInt
  by_cases hr1 : x - (⌊x⌋ : ℚ) < 1/2
  · rw [if_pos hr1, abs_le]
    constructor <;> linarith
  · rw [if_neg hr1]
    by_cases hr2 : (1:ℚ)/2 < x - (⌊x⌋ : ℚ)
    · rw [if_pos hr2, abs_le]
      constructor <;> push_cast <;> linarith
    · rw [if_neg hr2]
      by_cases he : ⌊x⌋ % 2 = 0
      · rw [if_pos he, abs_le]
        constructor <;> linarith
      · rw [if_neg he, abs_le]
        constructor <;> push_cast <;> linarith

/-- Rounding to 2 decimal places moves a rational by at most half a cent. -/
theorem pyRound2_close (x : ℚ) : |pyRound2 x - x| ≤ 1/200 := by
  have h := pyRoundInt_close (x * 100)
  unfold pyRound2
  have heq : (pyRoundInt (x * 100) : ℚ) / 100 - x =
      ((pyRoundInt (x * 100) : ℚ) - x * 100) / 100 := by ring
  rw [heq, abs_div, abs_of_pos (by norm_num : (0:ℚ) < 100)]
  linarith

theorem calcMargin_ok {best : List (String × Odd)} {margin : ℚ}
    (h : calcMargin best = .ok margin) :
    (∀ p ∈ best, p.2.value ≠ 0) ∧
    ((1 ≤ (best.map (fun p => 1 / p.2.value)).sum ∧ margin = 0) ∨
     ((best.map (fun p => 1 / p.2.value)).sum < 1 ∧
      margin = (1 - (best.map (fun p => 1 / p.2.value)).sum) * 100)) := by
  unfold calcMargin at h
  by_cases h1 : ∃ p ∈ best, p.2.value = 0
  · rw [if_pos h1] at h
    exact absurd h (by simp)
  · rw [if_neg h1] at h
    refine ⟨by push_neg at h1; exact h1, ?_⟩
    by_cases h2 : 1 ≤ (best.map (fun p => 1 / p.2.value)).sum
    · rw [if_pos h2] at h
      exact Or.inl ⟨h2, (Except.ok.injEq .. ▸ h).symm⟩
    · rw [if_neg h2] at h
      exact Or.inr ⟨lt_of_not_le h2, (Except.ok.injEq .. ▸ h).symm⟩

theorem calcStakes_ok {best : List (String × Odd)} {T : ℚ}
    {st : List StakeEntry} (h : calcStakes best T = .ok st) :
    (∀ p ∈ best, p.2.value ≠ 0) ∧
    (best.map (fun q => 1 / q.2.value)).sum ≠ 0 ∧
    st = best.map (fun p =>
      { outcome := p.1
        bookmaker := p.2.bookmaker
        odds := p.2.value
        stake := pyRound2 (exactStake best T p)
        expected_return := pyRound2 (exactStake best T p * p.2.value) }) := by
  unfold calcStakes at h
  by_cases h1 : ∃ p ∈ best, p.2.value = 0
  · rw [if_pos h1] at h
    exact absurd h (by simp)
  · rw [if_neg h1] at h
    by_cases h2 : (best.map (fun q => 1 / q.2.value)).sum = 0
    · rw [if_pos h2] at h
      exact absurd h (by simp)
    · rw [if_neg h2] at h
      exact ⟨by push_neg at h1; exact h1, h2, (Except.ok.injEq .. ▸ h).symm⟩

/-- Inversion of `analyzeMarket`: an emitted `SureBet` passed the margin
filter, its stakes come from `calcStakes`, its profit from `calcProfit`,
and its `roi` is `guaranteed_profit / total_stake * 100`. -/
theorem analyzeMarket_ok_some {cfg : SurebetConfig} {m : Match}
    {market : String} {odds_list : List Odd} {T : ℚ} {sb : SureBet}
    (h : analyzeMarket cfg m market odds_list T = .ok (some sb)) :
    ∃ margin stakes gp,
      calcMargin (bestOdds odds_list) = .ok margin ∧
      cfg.margen_minimo ≤ margin ∧ margin ≤ cfg.margen_maximo ∧
      calcStakes (bestOdds odds_list) T = .ok stakes ∧
      calcProfit stakes = .ok gp ∧ T ≠ 0 ∧
      sb = { match_ := m, market := market, margin := margin,
             roi := gp / T * 100, stakes := stakes, total_stake := T,
             guaranteed_profit := gp } := by
  unfold analyzeMarket at h
  split at h
  next e hm => exact absurd h (by simp)
  next margin hm =>
    split at h
    next h1 => exact absurd h (by simp)
    next h1 =>
      split at h
      next h2 => exact absurd h (by simp)
      next h2 =>
        split at h
        next e hs => exact absurd h (by simp)
        next stakes hs =>
          split at h
          next e hp => exact absurd h (by simp)
          next gp hp =>
            split at h
            next hT => exact absurd h (by simp)
            next hT =>
              refine ⟨margin, stakes, gp, hm, le_of_not_lt h1,
                le_of_not_lt h2, hs, hp, hT, ?_⟩
              exact (Option.some.inj (Except.ok.inj h)).symm

theorem calcProfit_ok {stakes : List StakeEntry} {gp : ℚ}
    (h : calcProfit stakes = .ok gp) :
    stakes ≠ [] ∧
    gp = stakes.headI.expected_return - (stakes.map (fun s => s.stake)).sum := by
  cases stakes with
  | nil => exact absurd h (by simp [calcProfit])
  | cons s0 rest =>
    refine ⟨by simp, ?_⟩
    simp only [calcProfit] at h
    simp only [List.headI, List.map_cons, List.sum_cons]
    exact (Except.ok.injEq .. ▸ h).symm

theorem calcMargin_ok_of_ne_zero {best : List (String × Odd)}
    (h : ∀ p ∈ best, p.2.value ≠ 0) : ∃ mg, calcMargin best = .ok mg := by
  have h0 : ¬ ∃ p ∈ best, p.2.value = 0 := by push_neg; exact h
  unfold calcMargin
  rw [if_neg h0]
  by_cases h2 : 1 ≤ (best.map (fun p => 1 / p.2.value)).sum
  · rw [if_pos h2]; exact ⟨0, rfl⟩
  · rw [if_neg h2]; exact ⟨_, rfl⟩

theorem calcStakes_ok_of_pos {best : List (String × Odd)} (T : ℚ)
    (hb : best ≠ []) (h : ∀ p ∈ best, 0 < p.2.value) :
    ∃ st, calcStakes best T = .ok st ∧ st ≠ [] := by
  have h0 : ¬ ∃ p ∈ best, p.2.value = 0 := by
    push_neg; exact fun p hp => ne_of_gt (h p hp)
  have hsum : 0 < (best.map (fun q => 1 / q.2.value)).sum := by
    apply List.sum_pos
    · intro x hx
      obtain ⟨p, hp, rfl⟩ := List.mem_map.mp hx
      exact one_div_pos.mpr (h p hp)
    · intro hc
      exact hb (List.map_eq_nil_iff.mp hc)
  unfold calcStakes
  rw [if_neg h0, if_neg (ne_of_gt hsum)]
  refine ⟨_, rfl, ?_⟩
  intro hc
  exact hb (List.map_eq_nil_iff.mp hc)

theorem foldl_addToGroup_acc_ne_nil (l : List Odd)
    (acc : List (String × List Odd)) (h : acc ≠ []) :
    l.foldl addToGroup acc ≠ [] := by
  induction l generalizing acc with
  | nil => simpa using h
  | cons o rest ih =>
    simp only [List.foldl_cons]
    exact ih (addToGroup acc o) (addToGroup_ne_nil acc o)

theorem bestOdds_ne_nil (l : List Odd) (h : l ≠ []) : bestOdds l ≠ [] := by
  cases l with
  | nil => exact absurd rfl h
  | cons o rest =>
    intro hc
    have : groupByOutcome (o :: rest) = [] := List.map_eq_nil_iff.mp hc
    exact foldl_addToGroup_acc_ne_nil rest (addToGroup [] o)
      (addToGroup_ne_nil [] o) this

/-- Under a nonempty quote list with positive odds values and a nonzero total
stake, `analyzeMarket` never raises: no division by zero and no empty-stakes
indexing is reachable. -/
theorem analyzeMarket_ne_error (cfg : SurebetConfig) (m : Match)
    (market : String) (odds_list : List Odd) (T : ℚ) (hne : odds_list ≠ [])
    (hpos : ∀ o ∈ odds_list, 0 < o.value) (hT : T ≠ 0) :
    analyzeMarket cfg m market odds_list T ≠ .error () := by
  have hbpos : ∀ p ∈ bestOdds odds_list, 0 < p.2.value :=
    fun p hp => hpos p.2 (bestOdds_mem odds_list p hp)
  obtain ⟨mg, hm⟩ :=
    calcMargin_ok_of_ne_zero (fun p hp => ne_of_gt (hbpos p hp))
  obtain ⟨st, hs, hstne⟩ :=
    calcStakes_ok_of_pos T (bestOdds_ne_nil odds_list hne) hbpos
  unfold analyzeMarket
  rw [hm]
  by_cases h1 : mg < cfg.margen_minimo
  · simp [h1]
  · by_cases h2 : cfg.margen_maximo < mg
    · simp [h1, h2]
    · cases st with
      | nil => exact absurd rfl hstne
      | cons s0 rest => simp [h1, h2, hs, calcProfit, hT]

theorem analyzeMarkets_ne_error (cfg : SurebetConfig) (m : Match)
    (mkts : List (String × List Odd)) (T : ℚ)
    (h : ∀ p ∈ mkts, p.2 ≠ [] ∧ ∀ o ∈ p.2, 0 < o.value) (hT : T ≠ 0) :
    analyzeMarkets cfg m mkts T ≠ .error () := by
  induction mkts with
  | nil => simp [analyzeMarkets]
  | cons p rest ih =>
    obtain ⟨k, ol⟩ := p
    have h1 := h (k, ol) (by simp)
    have hA : analyzeMarket cfg m k ol T ≠ .error () :=
      analyzeMarket_ne_error cfg m k ol T h1.1 h1.2 hT
    cases hA2 : analyzeMarket cfg m k ol T with
    | error e => cases e; exact absurd hA2 hA
    | ok r =>
      cases hR : analyzeMarkets cfg m rest T with
      | error e =>
        cases e
        exact absurd hR (ih (fun q hq => h q (List.mem_cons_of_mem _ hq)))
      | ok rs => cases r <;> simp [analyzeMarkets, hA2, hR]

theorem findSurebets_ne_error (cfg : SurebetConfig) (ms : List Match) (T : ℚ)
    (h : ∀ m ∈ ms, ∀ p ∈ m.odds, p.2 ≠ [] ∧ ∀ o ∈ p.2, 0 < o.value)
    (hT : T ≠ 0) : findSurebets cfg ms T ≠ .error () := by
  induction ms with
  | nil => simp [findSurebets]
  | cons m rest ih =>
    have hA : analyzeMarkets cfg m m.odds T ≠ .error () :=
      analyzeMarkets_ne_error cfg m m.odds T (h m (by simp)) hT
    cases hA2 : analyzeMarkets cfg m m.odds T with
    | error e => cases e; exact absurd hA2 hA
    | ok r =>
      cases hR : findSurebets cfg rest T with
      | error e =>
        cases e
        exact absurd hR (ih (fun q hq => h q (List.mem_cons_of_mem _ hq)))
      | ok rs => simp [findSurebets, hA2, hR]

theorem consolidate_pair_eq (m1 m2 : Match) (h : matchKey m2 = matchKey m1) :
    consolidate [m1, m2] =
      ⟨[{ m1 with odds := mergeOdds m1.odds m2.odds }, m2],
       [(matchKey m1, 0)]⟩ := by
  have hr : List.range ([m1, m2] : List Match).length = [0, 1] := rfl
  unfold consolidate
  rw [hr]
  simp [consolidateStep, List.lookup, h]

theorem consolidate_pair_ne (m1 m2 : Match) (h : ¬ matchKey m2 = matchKey m1) :
    consolidate [m1, m2] =
      ⟨[m1, m2], [(matchKey m1, 0), (matchKey m2, 1)]⟩ := by
  have hr : List.range ([m1, m2] : List Match).length = [0, 1] := rfl
  have hb : (matchKey m2 == matchKey m1) = false := beq_eq_false_iff_ne.mpr h
  unfold consolidate
  rw [hr]
  simp [consolidateStep, List.lookup, hb]

/-! ## Concrete fixtures for witnesses and counterexamples -/

deriving instance DecidableEq for Except

/-- The repository default thresholds (config.py lines 98-99):
`margen_minimo = 1.0`, `margen_maximo = 10.0`. -/
def cfg0 : SurebetConfig := ⟨1, 10⟩

/-- A margin range with `min = 0`, permitted by the spec's configuration
constraint (`min ≥ 0, max > min`). -/
def cfgZ : SurebetConfig := ⟨0, 10⟩

def oddsW : List Odd := [⟨"BmA", "1", 21/10, 0⟩, ⟨"BmB", "2", 21/10, 1⟩]

def mW : Match := ⟨"HomeW", "AwayW", "LeagueW", "AR", [("1X2", oddsW)]⟩

/-- The `SureBet` that `analyzeMarket cfg0 mW "1X2" oddsW 100` emits:
margin `(1 - 20/21) * 100`, both stakes exactly 50, returns 105, profit 5. -/
def sbW : SureBet :=
  { match_ := mW, market := "1X2", margin := 100/21, roi := 5,
    stakes := [⟨"1", "BmA", 21/10, 50, 105⟩, ⟨"2", "BmB", 21/10, 50, 105⟩],
    total_stake := 100, guaranteed_profit := 5 }

def oddsW2 : List Odd := [⟨"BmA", "1", 11/5, 0⟩, ⟨"BmB", "2", 11/5, 1⟩]

def mW2 : Match := ⟨"HomeV", "AwayV", "LeagueV", "AR", [("1X2", oddsW2)]⟩

/-- The `SureBet` that `analyzeMarket cfg0 mW2 "1X2" oddsW2 100` emits:
margin `(1 - 10/11) * 100`, stakes 50, returns 110, profit 10. -/
def sbW2 : SureBet :=
  { match_ := mW2, market := "1X2", margin := 100/11, roi := 10,
    stakes := [⟨"1", "BmA", 11/5, 50, 110⟩, ⟨"2", "BmB", 11/5, 50, 110⟩],
    total_stake := 100, guaranteed_profit := 10 }

/-- The three-outcome scenario from the spec: best odds 2.50 / 3.60 / 3.30,
total stake 10000. -/
def oddsScen : List Odd :=
  [⟨"BW", "1", 5/2, 0⟩, ⟨"CD", "X", 18/5, 1⟩, ⟨"BP", "2", 33/10, 2⟩]

def mScen : Match := ⟨"Boca", "River", "Primera Division", "AR", [("1X2", oddsScen)]⟩

/-- Two-outcome market whose reciprocal best odds sum to `39/38 > 1`. -/
def oddsC2 : List Odd := [⟨"A", "1", 2, 0⟩, ⟨"B", "2", 19/10, 1⟩]

def mC2 : Match := ⟨"H2", "A2", "L2", "AR", [("1X2", oddsC2)]⟩

/-- A `1X2` (three-outcome) market in which only the outcomes `1` and `2`
are quoted — the draw `X` has no quote. -/
def oddsC3 : List Odd := [⟨"A", "1", 41/20, 0⟩, ⟨"B", "2", 11/5, 1⟩]

def mC3 : Match := ⟨"H3", "A3", "L3", "AR", [("1X2", oddsC3)]⟩

/-- A market with a single quoted outcome (fewer than 2 outcomes). -/
def oddsC4 : List Odd := [⟨"A", "1", 21/20, 0⟩]

def mC4 : Match := ⟨"H4", "A4", "L4", "AR", [("1X2", oddsC4)]⟩

/-- Two-outcome market whose reciprocal best odds sum to exactly 1. -/
def oddsC5 : List Odd := [⟨"A", "1", 2, 0⟩, ⟨"B", "2", 2, 1⟩]

def mC5 : Match := ⟨"H5", "A5", "L5", "AR", [("1X2", oddsC5)]⟩

/-- Two quotes for outcome `1` tie on the odds value `41/20`; the one listed
first was observed later (timestamp 5) than the second (timestamp 3). -/
def oddsC6 : List Odd :=
  [⟨"late", "1", 41/20, 5⟩, ⟨"early", "1", 41/20, 3⟩, ⟨"C", "2", 11/5, 1⟩]

/-- Two raw events with the identical ordered participant pair but different
league labels. -/
def cm1 : Match := ⟨"TeamA", "TeamB", "League1", "AR", [("1X2", [⟨"BmA", "1", 2, 0⟩])]⟩

def cm2 : Match :=
  ⟨"TeamA", "TeamB", "League2", "AR",
   [("1X2", [⟨"BmB", "1", 21/10, 1⟩]), ("OU", [⟨"BmB", "Over", 19/10, 2⟩])]⟩

/-! ## Claims -/

/-- C1: for every accepted Opportunity produced by the Detector with positive
best odds and positive totalStake, the proportionally allocated per-outcome
stakes sum exactly to the total stake, the payout `stake * bestOdds` is
equal across all outcomes, the stored stakes are exactly the 2-decimal
roundings of those allocations, and each stored stake is within half a cent
(1/200) of the exact allocation. -/
theorem C1_stake_allocation (cfg : SurebetConfig) (m : Match) (market : String)
    (odds_list : List Odd) (T : ℚ) (sb : SureBet)
    (hemit : analyzeMarket cfg m market odds_list T = .ok (some sb))
    (hpos : ∀ p ∈ bestOdds odds_list, 0 < p.2.value) (_hT : 0 < T) :
    ((bestOdds odds_list).map (exactStake (bestOdds odds_list) T)).sum = T ∧
    (∀ p ∈ bestOdds odds_list, ∀ q ∈ bestOdds odds_list,
      exactStake (bestOdds odds_list) T p * p.2.value =
      exactStake (bestOdds odds_list) T q * q.2.value) ∧
    sb.stakes = (bestOdds odds_list).map (fun p =>
      { outcome := p.1, bookmaker := p.2.bookmaker, odds := p.2.value,
        stake := pyRound2 (exactStake (bestOdds odds_list) T p),
        expected_return :=
          pyRound2 (exactStake (bestOdds odds_list) T p * p.2.value) }) ∧
    ∀ p ∈ bestOdds odds_list,
      |pyRound2 (exactStake (bestOdds odds_list) T p) -
        exactStake (bestOdds odds_list) T p| ≤ 1/200 := by
  obtain ⟨margin, stakes, gp, hm, h1, h2, hs, hp, hT0, hsb⟩ :=
    analyzeMarket_ok_some hemit
  obtain ⟨hz, hW, hst⟩ := calcStakes_ok hs
  obtain ⟨hsne, hgp⟩ := calcProfit_ok hp
  have hbne : bestOdds odds_list ≠ [] := by
    intro hc
    apply hsne
    rw [hst, hc]
    rfl
  have hWpos : 0 < ((bestOdds odds_list).map (fun q => 1 / q.2.value)).sum := by
    apply List.sum_pos
    · intro x hx
      obtain ⟨p, hp2, rfl⟩ := List.mem_map.mp hx
      exact one_div_pos.mpr (hpos p hp2)
    · intro hc
      exact hbne (List.map_eq_nil_iff.mp hc)
  have hWne := ne_of_gt hWpos
  refine ⟨?_, ?_, ?_, ?_⟩
  · have hmm : (bestOdds odds_list).map (exactStake (bestOdds odds_list) T) =
        ((bestOdds odds_list).map (fun q => 1 / q.2.value)).map
          (fun w => w / (((bestOdds odds_list).map (fun q => 1 / q.2.value)).sum) * T) := by
      rw [List.map_map]
      rfl
    rw [hmm, sum_map_div_mul, div_self hWne, one_mul]
  · intro p hp2 q hq2
    have hvp := ne_of_gt (hpos p hp2)
    have hvq := ne_of_gt (hpos q hq2)
    have key : ∀ v : ℚ, v ≠ 0 →
        1 / v / (((bestOdds odds_list).map (fun q => 1 / q.2.value)).sum) * T * v =
        T / (((bestOdds odds_list).map (fun q => 1 / q.2.value)).sum) := by
      intro v hv
      field_simp
      ring
    unfold exactStake
    rw [key _ hvp, key _ hvq]
  · rw [hsb]
    exact hst
  · intro p hp2
    exact pyRound2_close _

/-- Witness for C1 at the concrete market `mW` (two outcomes, both odds 2.1,
total stake 100). -/
theorem C1_stake_allocation_witness :
    analyzeMarket cfg0 mW "1X2" oddsW 100 = .ok (some sbW) ∧
    (∀ p ∈ bestOdds oddsW, 0 < p.2.value) ∧ (0:ℚ) < 100 ∧
    (((bestOdds oddsW).map (exactStake (bestOdds oddsW) 100)).sum = 100 ∧
     (∀ p ∈ bestOdds oddsW, ∀ q ∈ bestOdds oddsW,
       exactStake (bestOdds oddsW) 100 p * p.2.value =
       exactStake (bestOdds oddsW) 100 q * q.2.value) ∧
     sbW.stakes = (bestOdds oddsW).map (fun p =>
       { outcome := p.1, bookmaker := p.2.bookmaker, odds := p.2.value,
         stake := pyRound2 (exactStake (bestOdds oddsW) 100 p),
         expected_return :=
           pyRound2 (exactStake (bestOdds oddsW) 100 p * p.2.value) }) ∧
     ∀ p ∈ bestOdds oddsW,
       |pyRound2 (exactStake (bestOdds oddsW) 100 p) -
         exactStake (bestOdds oddsW) 100 p| ≤ 1/200) :=
  ⟨by decide, by decide, by norm_num,
   C1_stake_allocation cfg0 mW "1X2" oddsW 100 sbW (by decide) (by decide)
     (by norm_num)⟩

/-- C10: a market with an empty quote list is analyzed without error and
rejected whenever the configured maximum margin is below 100: the sum of
reciprocal odds over zero outcomes is 0, the computed margin is exactly 100,
and the market is rejected before stake allocation, so the `stakes[0]`
indexing in the profit computation is never reached. -/
theorem C10_empty_market (cfg : SurebetConfig) (m : Match) (market : String)
    (T : ℚ) (hmax : cfg.margen_maximo < 100) :
    analyzeMarket cfg m market [] T = .ok none ∧
    calcMargin (bestOdds []) = .ok 100 := by
  have hmarg : calcMargin (bestOdds []) = .ok 100 := by
    unfold calcMargin bestOdds groupByOutcome
    norm_num
  refine ⟨?_, hmarg⟩
  unfold analyzeMarket
  rw [hmarg]
  by_cases h1 : (100:ℚ) < cfg.margen_minimo
  · simp [h1]
  · simp [h1, hmax]

/-- Witness for C10 at the default configuration (`margen_maximo = 10`). -/
theorem C10_empty_market_witness :
    cfg0.margen_maximo < 100 ∧
    (analyzeMarket cfg0 mW "1X2" [] 100 = .ok none ∧
     calcMargin (bestOdds []) = .ok 100) :=
  ⟨by decide, C10_empty_market cfg0 mW "1X2" 100 (by decide)⟩

/-- C2 (amended): provided the configured minimum margin is strictly
positive, every emitted Opportunity has
`margin = (1 - Σ 1/bestOdds[outcome]) * 100` (equivalently, computed from
the odds recorded in its own stake entries), and that margin lies within
`[margen_minimo, margen_maximo]`.  (With `margen_minimo = 0` — allowed by
the spec's `min ≥ 0` — a market with reciprocal-odds sum `> 1` is emitted
with margin `0`, which does not equal the formula; see the
counterexample.) -/
theorem C2_margin_formula_and_range (cfg : SurebetConfig) (m : Match)
    (market : String) (odds_list : List Odd) (T : ℚ) (sb : SureBet)
    (hmin : 0 < cfg.margen_minimo)
    (hemit : analyzeMarket cfg m market odds_list T = .ok (some sb)) :
    sb.margin =
      (1 - ((bestOdds odds_list).map (fun p => 1 / p.2.value)).sum) * 100 ∧
    sb.margin = (1 - (sb.stakes.map (fun e => 1 / e.odds)).sum) * 100 ∧
    cfg.margen_minimo ≤ sb.margin ∧ sb.margin ≤ cfg.margen_maximo := by
  obtain ⟨margin, stakes, gp, hm, h1, h2, hs, hp, hT0, hsb⟩ :=
    analyzeMarket_ok_some hemit
  obtain ⟨hz, hcase⟩ := calcMargin_ok hm
  have hmargin : sb.margin = margin := by rw [hsb]
  rcases hcase with ⟨hge, h0⟩ | ⟨hlt, hfor⟩
  · exfalso
    rw [h0] at h1
    linarith
  · obtain ⟨hzs, hWs, hst⟩ := calcStakes_ok hs
    have hform1 : sb.margin =
        (1 - ((bestOdds odds_list).map (fun p => 1 / p.2.value)).sum) * 100 := by
      rw [hmargin, hfor]
    refine ⟨hform1, ?_, ?_, ?_⟩
    · have hmap : sb.stakes.map (fun e => 1 / e.odds) =
          (bestOdds odds_list).map (fun p => 1 / p.2.value) := by
        have hsk : sb.stakes = stakes := by rw [hsb]
        rw [hsk, hst, List.map_map]
        rfl
      rw [hmap]
      exact hform1
    · rw [hmargin]; exact h1
    · rw [hmargin]; exact h2

/-- Witness for C2 at the concrete market `mW2` under the default
configuration (`margen_minimo = 1 > 0`). -/
theorem C2_margin_formula_and_range_witness :
    (0:ℚ) < cfg0.margen_minimo ∧
    analyzeMarket cfg0 mW2 "1X2" oddsW2 100 = .ok (some sbW2) ∧
    (sbW2.margin =
       (1 - ((bestOdds oddsW2).map (fun p => 1 / p.2.value)).sum) * 100 ∧
     sbW2.margin = (1 - (sbW2.stakes.map (fun e => 1 / e.odds)).sum) * 100 ∧
     cfg0.margen_minimo ≤ sbW2.margin ∧ sbW2.margin ≤ cfg0.margen_maximo) :=
  ⟨by decide, by decide,
   C2_margin_formula_and_range cfg0 mW2 "1X2" oddsW2 100 sbW2 (by decide)
     (by decide)⟩

/-- Counterexample to C2 as stated: with the margin range `[0, 10]` (valid
per the spec: `min ≥ 0`, `max > min`), the market `mC2` (best odds 2.0 and
1.9, reciprocal sum `39/38 > 1`) is emitted as an Opportunity with margin
0, and 0 is not `(1 - Σ 1/bestOdds) * 100 = -100/19`. -/
theorem C2_margin_formula_counterexample :
    (0:ℚ) ≤ cfgZ.margen_minimo ∧ cfgZ.margen_minimo < cfgZ.margen_maximo ∧
    Except.map (fun l => l.map SureBet.margin) (findSurebets cfgZ [mC2] 100) =
      .ok [0] ∧
    (1 - ((bestOdds oddsC2).map (fun p => 1 / p.2.value)).sum) * 100 ≠ 0 := by
  refine ⟨by decide, by decide, by decide, by decide⟩

/-- C3 (amended): the Detector has no notion of a market's fixed outcome
set, so a market with unquoted outcomes is not detected as incomplete and
not skipped: the per-market analysis runs over whichever outcomes are
quoted, never raising (given a nonempty quote list, positive odds values and
a nonzero total stake), and may emit an Opportunity for the partially
quoted market (see the counterexample, where a 2-of-3 market yields one). -/
theorem C3_incomplete_market_not_skipped (cfg : SurebetConfig) (m : Match)
    (market : String) (odds_list : List Odd) (T : ℚ) (hne : odds_list ≠ [])
    (hpos : ∀ o ∈ odds_list, 0 < o.value) (hT : T ≠ 0) :
    analyzeMarket cfg m market odds_list T ≠ .error () :=
  analyzeMarket_ne_error cfg m market odds_list T hne hpos hT

/-- Witness for C3 at the 2-of-3 market `mC3`. -/
theorem C3_incomplete_market_not_skipped_witness :
    oddsC3 ≠ [] ∧ (∀ o ∈ oddsC3, 0 < o.value) ∧ (100:ℚ) ≠ 0 ∧
    analyzeMarket cfg0 mC3 "1X2" oddsC3 100 ≠ .error () :=
  ⟨by decide, by decide, by norm_num,
   C3_incomplete_market_not_skipped cfg0 mC3 "1X2" oddsC3 100 (by decide)
     (by decide) (by norm_num)⟩

/-- Counterexample to C3 as stated: the market `mC3` is labelled `1X2`
(outcome set {1, X, 2}) but only the outcomes `1` and `2` carry quotes; the
Detector does not skip it — it emits one Opportunity for it (computed over
the two quoted outcomes), instead of the zero the claim requires. -/
theorem C3_incomplete_market_counterexample :
    oddsC3.map Odd.outcome = ["1", "2"] ∧
    Except.map List.length (findSurebets cfg0 [mC3] 100) = .ok 1 := by
  refine ⟨by decide, by decide⟩

/-- C4 (amended): the Detector performs no input validation.  Whenever every
market has a nonempty quote list with only positive odds values and the
total stake is nonzero, the whole call completes without error — even for
markets with fewer than 2 outcomes and for negative total stakes, which can
produce Opportunities (see the counterexample).  The only aborts are
Python `ZeroDivisionError`s, not a distinguishable InvalidInput condition:
in particular a market whose single quote has odds value 0 aborts the whole
per-market analysis. -/
theorem C4_no_input_validation :
    (∀ (cfg : SurebetConfig) (ms : List Match) (T : ℚ),
      (∀ m ∈ ms, ∀ p ∈ m.odds, p.2 ≠ [] ∧ ∀ o ∈ p.2, 0 < o.value) →
      T ≠ 0 → findSurebets cfg ms T ≠ .error ()) ∧
    (∀ (cfg : SurebetConfig) (m : Match) (market b oc : String) (ts : ℕ)
      (T : ℚ), analyzeMarket cfg m market [⟨b, oc, 0, ts⟩] T = .error ()) := by
  constructor
  · exact fun cfg ms T h hT => findSurebets_ne_error cfg ms T h hT
  · intro cfg m market b oc ts T
    have hb : bestOdds [⟨b, oc, 0, ts⟩] = [(oc, ⟨b, oc, 0, ts⟩)] := by
      simp [bestOdds, groupByOutcome, addToGroup, bestOfGroup, pyMaxByValue]
    have hm : calcMargin (bestOdds [⟨b, oc, 0, ts⟩]) = .error () := by
      rw [hb]
      unfold calcMargin
      rw [if_pos]
      exact ⟨(oc, ⟨b, oc, 0, ts⟩), by simp, rfl⟩
    unfold analyzeMarket
    rw [hm]

/-- Witness for C4: the single-outcome market `mC4` with the negative total
stake `-100` completes without error (and in fact emits an Opportunity,
per the counterexample). -/
theorem C4_no_input_validation_witness :
    (∀ m ∈ [mC4], ∀ p ∈ m.odds, p.2 ≠ [] ∧ ∀ o ∈ p.2, 0 < o.value) ∧
    (-100:ℚ) ≠ 0 ∧ findSurebets cfg0 [mC4] (-100) ≠ .error () :=
  ⟨by decide, by norm_num,
   C4_no_input_validation.1 cfg0 [mC4] (-100) (by decide) (by norm_num)⟩

/-- Counterexample to C4 as stated: `mC4` has a market with a single quoted
outcome (fewer than 2 outcomes) and the total stake is negative, yet the
call does not fail — it emits one Opportunity instead of raising
InvalidInput. -/
theorem C4_invalid_input_counterexample :
    mC4.odds.map (fun p => p.2.map Odd.outcome) = [["1"]] ∧ (-100:ℚ) < 0 ∧
    Except.map List.length (findSurebets cfg0 [mC4] (-100)) = .ok 1 := by
  refine ⟨by decide, by decide, by decide⟩

/-- C5 (amended): for every market whose best-odds reciprocals sum to at
least 1 (zero-free odds values), the computed margin is 0; and provided the
configured minimum margin is strictly positive, the market is rejected (no
Opportunity).  (With `margen_minimo = 0` — allowed by the spec's
`min ≥ 0` — the zero margin passes the filter and an Opportunity is
emitted; see the counterexample at the exact boundary `Σ 1/odds = 1`.) -/
theorem C5_sum_ge_one_rejected (cfg : SurebetConfig) (m : Match)
    (market : String) (odds_list : List Odd) (T : ℚ)
    (hmin : 0 < cfg.margen_minimo)
    (hz : ∀ p ∈ bestOdds odds_list, p.2.value ≠ 0)
    (hge : 1 ≤ ((bestOdds odds_list).map (fun p => 1 / p.2.value)).sum) :
    calcMargin (bestOdds odds_list) = .ok 0 ∧
    analyzeMarket cfg m market odds_list T = .ok none := by
  have h0 : ¬ ∃ p ∈ bestOdds odds_list, p.2.value = 0 := by push_neg; exact hz
  have hm : calcMargin (bestOdds odds_list) = .ok 0 := by
    unfold calcMargin
    rw [if_neg h0, if_pos hge]
  refine ⟨hm, ?_⟩
  unfold analyzeMarket
  simp [hm, hmin]

/-- Witness for C5 at the market `mC5` (odds 2.0 / 2.0, reciprocal sum
exactly 1) under the default configuration (`margen_minimo = 1 > 0`). -/
theorem C5_sum_ge_one_rejected_witness :
    (0:ℚ) < cfg0.margen_minimo ∧
    (∀ p ∈ bestOdds oddsC5, p.2.value ≠ 0) ∧
    1 ≤ ((bestOdds oddsC5).map (fun p => 1 / p.2.value)).sum ∧
    (calcMargin (bestOdds oddsC5) = .ok 0 ∧
     analyzeMarket cfg0 mC5 "1X2" oddsC5 100 = .ok none) :=
  ⟨by decide, by decide, by decide,
   C5_sum_ge_one_rejected cfg0 mC5 "1X2" oddsC5 100 (by decide) (by decide)
     (by decide)⟩

/-- Counterexample to C5 as stated: the margin range `[0, 10]` is valid per
the claim's own constraint (`min ≥ 0`, `max > min`), the best-odds
reciprocals of `mC5` sum to exactly 1, yet the market is not rejected: one
Opportunity is emitted (with margin 0). -/
theorem C5_boundary_counterexample :
    ((bestOdds oddsC5).map (fun p => 1 / p.2.value)).sum = 1 ∧
    (0:ℚ) ≤ cfgZ.margen_minimo ∧ cfgZ.margen_minimo < cfgZ.margen_maximo ∧
    Except.map List.length (findSurebets cfgZ [mC5] 100) = .ok 1 := by
  refine ⟨by decide, by decide, by decide, by decide⟩

/-- C6 (amended): for each outcome the selected quote has the maximum odds
value in that outcome's quote group, and among ties the one occurring
earliest in the per-outcome quote list (arrival/insertion order) wins:
Python's `max(odds, key=lambda x: x.value)` splits its input into a prefix
of strictly smaller values, the selected quote, and a suffix with no
strictly larger value.  Observation timestamps are not consulted (see the
counterexample, where a tied quote with an earlier timestamp loses). -/
theorem C6_best_quote_selection (o : Odd) (os : List Odd) :
    ∃ l1 l2, o :: os = l1 ++ pyMaxByValue o os :: l2 ∧
      (∀ x ∈ l1, x.value < (pyMaxByValue o os).value) ∧
      (∀ x ∈ l2, x.value ≤ (pyMaxByValue o os).value) :=
  pyMax_first_max os o

/-- Counterexample to C6 as stated: in `oddsC6` the quotes from `late`
(timestamp 5) and `early` (timestamp 3) tie on the odds value `41/20` for
outcome `1`, and the selection returns the `late` quote — first in list
order — not the one with the earliest observation time. -/
theorem C6_tie_break_counterexample :
    (bestOdds oddsC6).lookup "1" = some ⟨"late", "1", 41/20, 5⟩ ∧
    (⟨"early", "1", 41/20, 3⟩ : Odd) ∈ oddsC6 ∧
    (Odd.value ⟨"early", "1", 41/20, 3⟩ = Odd.value ⟨"late", "1", 41/20, 5⟩) ∧
    (Odd.timestamp ⟨"early", "1", 41/20, 3⟩ <
      Odd.timestamp ⟨"late", "1", 41/20, 5⟩) := by
  refine ⟨by decide, by decide, by decide, by decide⟩

/-- C7 (amended): the stakes stored in an emitted Opportunity are the
2-decimal-place roundings of the exact proportional allocations (and
likewise the stored expected returns), applied inside the stake
computation, not at presentation time; the guaranteed profit is computed
from those rounded values — the first entry's rounded expected return minus
the sum of the rounded stakes — and `roi = guaranteed_profit / totalStake *
100`.  Hence the profit can differ from the exact common return minus the
total stake (see the counterexample). -/
theorem C7_rounding_inside_computation (cfg : SurebetConfig) (m : Match)
    (market : String) (odds_list : List Odd) (T : ℚ) (sb : SureBet)
    (hemit : analyzeMarket cfg m market odds_list T = .ok (some sb)) :
    sb.stakes = (bestOdds odds_list).map (fun p =>
      { outcome := p.1, bookmaker := p.2.bookmaker, odds := p.2.value,
        stake := pyRound2 (exactStake (bestOdds odds_list) T p),
        expected_return :=
          pyRound2 (exactStake (bestOdds odds_list) T p * p.2.value) }) ∧
    sb.guaranteed_profit =
      sb.stakes.headI.expected_return -
        (sb.stakes.map (fun s => s.stake)).sum ∧
    sb.roi = sb.guaranteed_profit / sb.total_stake * 100 ∧
    sb.total_stake = T := by
  obtain ⟨margin, stakes, gp, hm, h1, h2, hs, hp, hT0, hsb⟩ :=
    analyzeMarket_ok_some hemit
  obtain ⟨hz, hW, hst⟩ := calcStakes_ok hs
  obtain ⟨hsne, hgp⟩ := calcProfit_ok hp
  have hsk : sb.stakes = stakes := by rw [hsb]
  refine ⟨?_, ?_, ?_, ?_⟩
  · rw [hsk]; exact hst
  · rw [hsk]
    have : sb.guaranteed_profit = gp := by rw [hsb]
    rw [this, hgp]
  · rw [hsb]
  · rw [hsb]

/-- Witness for C7 at the concrete market `mW2`. -/
theorem C7_rounding_inside_computation_witness :
    analyzeMarket cfg0 mW2 "1X2" oddsW2 100 = .ok (some sbW2) ∧
    (sbW2.stakes = (bestOdds oddsW2).map (fun p =>
       { outcome := p.1, bookmaker := p.2.bookmaker, odds := p.2.value,
         stake := pyRound2 (exactStake (bestOdds oddsW2) 100 p),
         expected_return :=
           pyRound2 (exactStake (bestOdds oddsW2) 100 p * p.2.value) }) ∧
     sbW2.guaranteed_profit =
       sbW2.stakes.headI.expected_return -
         (sbW2.stakes.map (fun s => s.stake)).sum ∧
     sbW2.roi = sbW2.guaranteed_profit / sbW2.total_stake * 100 ∧
     sbW2.total_stake = 100) :=
  ⟨by decide,
   C7_rounding_inside_computation cfg0 mW2 "1X2" oddsW2 100 sbW2 (by decide)⟩

/-- Counterexample to C7 as stated: on the spec's own scenario (best odds
2.50 / 3.60 / 3.30, total stake 10000) the emitted guaranteed profit is
`195.67` — computed from stakes and returns already rounded to 2 decimal
places — whereas the exact common expected return minus the total stake is
`190000/971 ≈ 195.6745...`; the two differ, so internal computation does
not use full precision. -/
theorem C7_full_precision_counterexample :
    Except.map (fun l => l.map SureBet.guaranteed_profit)
      (findSurebets cfg0 [mScen] 10000) = .ok [19567/100] ∧
    exactStake (bestOdds oddsScen) 10000 ((bestOdds oddsScen).headI) *
        ((bestOdds oddsScen).headI).2.value - 10000 = 190000/971 ∧
    (19567:ℚ)/100 ≠ 190000/971 := by
  refine ⟨by decide, by decide, by decide⟩

/-- C8 (amended): during consolidation two raw events are merged into the
same Event if and only if their consolidation keys agree, where the key
`home_team ++ "|" ++ away_team` is built from the ordered participant pair
only — the competition/league label does not enter the key, so two events
with identical participant pairs but different league labels are merged
into one Event (see the counterexample), contrary to the claim. -/
theorem C8_merge_key (m1 m2 : Match) :
    matchKey m1 = m1.home_team ++ "|" ++ m1.away_team ∧
    (matchList (consolidate [m1, m2])).length =
      (if matchKey m2 = matchKey m1 then 1 else 2) := by
  refine ⟨rfl, ?_⟩
  by_cases h : matchKey m2 = matchKey m1
  · rw [if_pos h, consolidate_pair_eq m1 m2 h]
    rfl
  · rw [if_neg h, consolidate_pair_ne m1 m2 h]
    rfl

/-- Counterexample to C8 as stated: `cm1` and `cm2` have the same ordered
participant pair but different league labels, yet consolidation produces a
single Event, not two distinct ones. -/
theorem C8_league_ignored_counterexample :
    cm1.home_team = cm2.home_team ∧ cm1.away_team = cm2.away_team ∧
    cm1.league ≠ cm2.league ∧
    (matchList (consolidate [cm1, cm2])).length = 1 := by
  refine ⟨by decide, by decide, by decide, by decide⟩

/-- C9 (amended): consolidation is not a pure constructor of a fresh merged
structure — it mutates its input in place.  For two matches with the same
key, the final heap shows the first-seen `Match` object mutated (its odds
dict extended, market by market, with the second match's quotes appended
by concatenation, never replaced), while the second input object is left
unchanged; the consolidated output aliases the mutated first object. -/
theorem C9_consolidation_mutates_input (m1 m2 : Match)
    (h : matchKey m2 = matchKey m1) :
    (consolidate [m1, m2]).store =
      [{ m1 with odds := mergeOdds m1.odds m2.odds }, m2] ∧
    matchList (consolidate [m1, m2]) =
      [{ m1 with odds := mergeOdds m1.odds m2.odds }] := by
  rw [consolidate_pair_eq m1 m2 h]
  exact ⟨rfl, rfl⟩

/-- Witness for C9 at the concrete pair `cm1`, `cm2`. -/
theorem C9_consolidation_mutates_input_witness :
    matchKey cm2 = matchKey cm1 ∧
    ((consolidate [cm1, cm2]).store =
       [{ cm1 with odds := mergeOdds cm1.odds cm2.odds }, cm2] ∧
     matchList (consolidate [cm1, cm2]) =
       [{ cm1 with odds := mergeOdds cm1.odds cm2.odds }]) :=
  ⟨by decide, C9_consolidation_mutates_input cm1 cm2 (by decide)⟩

/-- Counterexample to C9 as stated: after consolidating `[cm1, cm2]` the
heap no longer holds the original input objects — the first-seen match was
mutated (its `1X2` quote list was extended with `cm2`'s quote and an `OU`
market was added), so the inputs are not left unchanged. -/
theorem C9_purity_counterexample :
    (consolidate [cm1, cm2]).store ≠ [cm1, cm2] ∧
    ((consolidate [cm1, cm2]).store.getD 0 default).odds ≠ cm1.odds := by
  refine ⟨by decide, by decide⟩

end SurebetScraper
